import Mathlib

/-!
Shallow embedding of the retry / resumable-iteration engine of
`modules/banquepopulaire/browser.py` (weboob): the `retry` decorator, the
`iter_retry` resumable iterator, the `no_need_login` guard and the
`do_login` routine.

Exceptions are modelled by the `Exc` type.  The source raises
`BrowserUnavailable` with three distinct messages; the spec names those
three failure modes `ExhaustedRetries` ("Site did not reply successfully
after multiple tries"), `InconsistentRetryError` ("Site replied
inconsistently between retries") and `ShortReplayError` ("Site replied
fewer elements than last iteration"); the model keeps them as distinct
outcome constructors so the theorems can speak about each one.
-/

namespace BP

/-- Exceptions the modelled code can raise.  `loggedOut` is the `LoggedOut`
class used as `exc_check` by the `retry(LoggedOut)` decorators;
`incorrectPassword` is `BrowserIncorrectPassword`; `otherExc` stands for
any other exception class reaching the wrappers. -/
inductive Exc where
  | loggedOut
  | incorrectPassword
  | otherExc
  deriving DecidableEq, Repr

/-- The `isinstance(exc, LoggedOut)` test performed by `except exc_check`
when the decorator is applied as `retry(LoggedOut)`. -/
def isLoggedOut : Exc → Bool
  | Exc.loggedOut => true
  | _ => false

/-- How one created iterator instance ends after its yielded values:
`StopIteration` (normal end) or an exception. -/
inductive AOut where
  | stop
  | raise (e : Exc)
  deriving DecidableEq, Repr

/-- Behaviour of one iterator instance returned by one factory call `cb()`:
the list of values it yields in order, then its terminal behaviour. -/
structure Attempt (α : Type) where
  items : List α
  out : AOut
  deriving DecidableEq, Repr

/-- Outcome of one `next(self.it)` pull. -/
inductive Pull (α : Type) where
  | item (a : α)
  | stop
  | raise (e : Exc)
  deriving DecidableEq, Repr

/-- A producer maps each factory-invocation index to the behaviour of the
iterator created by that invocation; `pull P inst pos` is the outcome of
the `(pos+1)`-th `next` on the iterator created by invocation `inst`. -/
def pull (P : Nat → Attempt α) (inst pos : Nat) : Pull α :=
  match (P inst).items[pos]? with
  | some a => Pull.item a
  | none =>
    match (P inst).out with
    | AOut.stop => Pull.stop
    | AOut.raise e => Pull.raise e

/-- A record class: `toDict = some f` models a class having a `to_dict`
method (so `hasattr(new, 'to_dict')` holds and `f` computes the dict);
`none` models a class without one. -/
structure RecordKind (α δ : Type) where
  toDict : Option (α → δ)

/-- The comparison performed by `iter_retry.__next__` between a previously
sent record and the record re-produced on replay:

    if hasattr(new, 'to_dict'):
        equal = sent.to_dict() == new.to_dict()
    else:
        equal = sent == new
-/
def recEqual [DecidableEq α] [DecidableEq δ] (rt : RecordKind α δ) (sent new : α) : Bool :=
  match rt.toDict with
  | some f => decide (f sent = f new)
  | none => decide (sent = new)

/-- Result of the replay loop `for nb, sent in enumerate(self.items)` of
`iter_retry.__next__` run on a freshly created iterator instance.  The
carried position is the number of successful pulls the instance has
answered when the loop ends. -/
inductive ReplayRes where
  | ok (pos : Nat)
  | inconsist (pos : Nat)
  | shortR (pos : Nat)
  | transientR
  | fatalR (e : Exc) (pos : Nat)
  deriving DecidableEq, Repr

/-- The replay loop of `iter_retry.__next__`: pull one value per already
sent item and compare; a mismatch is the `BrowserUnavailable('Site replied
inconsistently between retries')` raise, `StopIteration` is the
`BrowserUnavailable('Site replied fewer elements than last iteration')`
raise, an `exc_check` exception aborts the loop transiently, any other
exception propagates. -/
def replay [DecidableEq α] [DecidableEq δ] (P : Nat → Attempt α) (rt : RecordKind α δ)
    (ec : Exc → Bool) (inst : Nat) : List α → Nat → ReplayRes
  | [], pos => ReplayRes.ok pos
  | sent :: rest, pos =>
    match pull P inst pos with
    | Pull.item new =>
      if recEqual rt sent new then replay P rt ec inst rest (pos + 1)
      else ReplayRes.inconsist pos
    | Pull.stop => ReplayRes.shortR pos
    | Pull.raise e => if ec e then ReplayRes.transientR else ReplayRes.fatalR e pos

/-- State of an `iter_retry` object: `nextInst` is the index the next
factory call would get (so the number of factory calls made so far),
`it` is `self.it` (`some (inst, pos)` = the iterator created by call
`inst`, already pulled `pos` times; `none` = discarded), `items` is
`self.items`, `remaining` is `self.remaining`. -/
structure IterRetry (α : Type) where
  nextInst : Nat
  it : Option (Nat × Nat)
  items : List α
  remaining : Nat
  deriving DecidableEq, Repr

/-- Failure outcomes of `iter_retry.__next__`: the three
`BrowserUnavailable` raises and a propagated exception. -/
inductive NxErr where
  | exhausted
  | inconsistent
  | shortReplay
  | exc (e : Exc)
  deriving DecidableEq, Repr

/-- Outcome of one `next()` on an `iter_retry`: a value together with the
new state, `StopIteration` (normal end), or a raised failure; the state is
carried on failure as well so theorems can inspect the budget and the
number of factory calls at raise time. -/
inductive NxRes (α : Type) where
  | item (a : α) (st : IterRetry α)
  | stop (st : IterRetry α)
  | fail (e : NxErr) (st : IterRetry α)
  deriving DecidableEq, Repr

/-- `iter_retry.__next__`, with the state passed explicitly
(`remaining`, `self.it`, next factory index, `self.items`).  The Python
recursion `return next(self)` after `self.remaining -= 1` becomes the
recursive call with the decremented first argument. -/
def nextGo [DecidableEq α] [DecidableEq δ] (P : Nat → Attempt α) (rt : RecordKind α δ)
    (ec : Exc → Bool) : Nat → Option (Nat × Nat) → Nat → List α → NxRes α
  | 0, it, nextInst, items => NxRes.fail NxErr.exhausted ⟨nextInst, it, items, 0⟩
  | r + 1, some (inst, pos), nextInst, items =>
    (match pull P inst pos with
     | Pull.item a => NxRes.item a ⟨nextInst, some (inst, pos + 1), items ++ [a], r + 1⟩
     | Pull.stop => NxRes.stop ⟨nextInst, some (inst, pos), items, r + 1⟩
     | Pull.raise e =>
       if ec e then nextGo P rt ec r none nextInst items
       else NxRes.fail (NxErr.exc e) ⟨nextInst, some (inst, pos), items, r + 1⟩)
  | r + 1, none, inst, items =>
    (match replay P rt ec inst items 0 with
     | ReplayRes.ok pos =>
       (match pull P inst pos with
        | Pull.item a => NxRes.item a ⟨inst + 1, some (inst, pos + 1), items ++ [a], r + 1⟩
        | Pull.stop => NxRes.stop ⟨inst + 1, some (inst, pos), items, r + 1⟩
        | Pull.raise e =>
          if ec e then nextGo P rt ec r none (inst + 1) items
          else NxRes.fail (NxErr.exc e) ⟨inst + 1, some (inst, pos), items, r + 1⟩)
     | ReplayRes.inconsist pos =>
       NxRes.fail NxErr.inconsistent ⟨inst + 1, some (inst, pos + 1), items, r + 1⟩
     | ReplayRes.shortR pos =>
       NxRes.fail NxErr.shortReplay ⟨inst + 1, some (inst, pos), items, r + 1⟩
     | ReplayRes.transientR => nextGo P rt ec r none (inst + 1) items
     | ReplayRes.fatalR e pos =>
       NxRes.fail (NxErr.exc e) ⟨inst + 1, some (inst, pos), items, r + 1⟩)

/-- One `next()` on an `iter_retry` in state `st`. -/
def iterNext [DecidableEq α] [DecidableEq δ] (P : Nat → Attempt α) (rt : RecordKind α δ)
    (ec : Exc → Bool) (st : IterRetry α) : NxRes α :=
  nextGo P rt ec st.remaining st.it st.nextInst st.items

/-- How a full consumer-driven iteration ends. -/
inductive DrainEnd (α : Type) where
  | ended (st : IterRetry α)
  | failed (e : NxErr) (st : IterRetry α)
  | fuelOut (st : IterRetry α)
  deriving DecidableEq, Repr

/-- The consumer loop: keep calling `next()` and collect the values, until
the iterator ends or raises.  `fuel` only bounds the number of consumer
pulls; the theorems always supply enough of it. -/
def drain [DecidableEq α] [DecidableEq δ] (P : Nat → Attempt α) (rt : RecordKind α δ)
    (ec : Exc → Bool) : Nat → IterRetry α → List α × DrainEnd α
  | 0, st => ([], DrainEnd.fuelOut st)
  | fuel + 1, st =>
    match iterNext P rt ec st with
    | NxRes.item a st' =>
      let p := drain P rt ec fuel st'
      (a :: p.1, p.2)
    | NxRes.stop st' => ([], DrainEnd.ended st')
    | NxRes.fail e st' => ([], DrainEnd.failed e st')

/-- A deterministic underlying producer with transient faults injected at
arbitrary points: the true record sequence is `seq`; attempt `a` yields all
of `seq` then ends normally when `cut a = none`, and yields only
`seq.take j` before raising the transient `LoggedOut` when
`cut a = some j`. -/
def detProducer (seq : List α) (cut : Nat → Option Nat) : Nat → Attempt α :=
  fun a =>
    match cut a with
    | none => ⟨seq, AOut.stop⟩
    | some j => ⟨seq.take j, AOut.raise Exc.loggedOut⟩

/-- What one factory invocation `cb()` does inside the `retry` wrapper
loop: return a non-iterable value, return an iterator (`hasattr(ret,
'__iter__')`), or raise. -/
inductive FacOut (α β : Type) where
  | value (b : β)
  | gen
  | raise (e : Exc)
  deriving DecidableEq, Repr

/-- Result of the `retry`-wrapped call: a plain value returned directly, or
an `iter_retry` wrapper around the produced iterator. -/
inductive RetryRet (α β : Type) where
  | value (b : β)
  | iterator (st : IterRetry α)
  deriving DecidableEq, Repr

/-- Failures of the `retry` wrapper itself: `unavailable` is the
`BrowserUnavailable('Site did not reply successfully after multiple
tries')` raised when the loop exhausts `tries` (the spec's
`ExhaustedRetries`), `exc e` a propagated non-`exc_check` exception. -/
inductive RetryErr where
  | unavailable
  | exc (e : Exc)
  deriving DecidableEq, Repr

/-- The loop `for i in xrange(tries, 0, -1)` of the `retry` decorator:
`k` is the index of the next factory invocation, the countdown argument is
the loop variable `i`.  On a successful iterator-returning call with loop
variable `i`, the wrapper returns `iter_retry(cb, value=ret, remaining=i)`:
the created instance is `k` and the resumable budget is the countdown. -/
def retryGo (fac : Nat → FacOut α β) (ec : Exc → Bool) (k : Nat) :
    Nat → Except RetryErr (RetryRet α β)
  | 0 => Except.error RetryErr.unavailable
  | i + 1 =>
    match fac k with
    | FacOut.value b => Except.ok (RetryRet.value b)
    | FacOut.gen => Except.ok (RetryRet.iterator ⟨k + 1, some (k, 0), [], i + 1⟩)
    | FacOut.raise e =>
      if ec e then retryGo fac ec (k + 1) i else Except.error (RetryErr.exc e)

/-- The `retry(exc_check, tries)` decorator applied to a factory. -/
def retry (fac : Nat → FacOut α β) (ec : Exc → Bool) (tries : Nat) :
    Except RetryErr (RetryRet α β) :=
  retryGo fac ec 0 tries

/-- Page classification of the browser's current response, as decided by
the `URL(...)` pattern table of `BanquePopulaire` (`login_page.is_here()`
etc.). -/
inductive PageKind where
  | loginPage
  | indexPage
  | homePage
  | otherPage
  deriving DecidableEq, Repr

/-- The site as the browser observes it: the page reached by
`self.location(self.BASEURL)` and the page reached by submitting the
credentials with `self.page.login(...)` from a given page. -/
structure Site where
  afterBase : PageKind
  afterLogin : PageKind → PageKind

/-- Browser state touched by the login machinery: the current page and the
`no_login` counter. -/
structure BrowserSt where
  page : PageKind
  no_login : Nat
  deriving DecidableEq, Repr

/-- The `no_need_login` decorator:

    browser.no_login += 1
    try:
        return func(browser, *args, **kwargs)
    finally:
        browser.no_login -= 1

`func` returns its result (or raised exception) together with the browser
state it leaves behind; the decrement runs on both paths. -/
def no_need_login (func : BrowserSt → Except Exc β × BrowserSt) (st : BrowserSt) :
    Except Exc β × BrowserSt :=
  let st1 : BrowserSt := { st with no_login := st.no_login + 1 }
  let r := func st1
  (r.1, { r.2 with no_login := r.2.no_login - 1 })

/-- Body of `BanquePopulaire.do_login`: go to the base URL, submit the
credentials, and raise `BrowserIncorrectPassword` if
`self.login_page.is_here()` still holds afterwards. -/
def do_login_body (site : Site) (st : BrowserSt) : Except Exc Unit × BrowserSt :=
  let st1 : BrowserSt := { st with page := site.afterBase }
  let st2 : BrowserSt := { st1 with page := site.afterLogin st1.page }
  if st2.page = PageKind.loginPage then (Except.error Exc.incorrectPassword, st2)
  else (Except.ok (), st2)

/-- `do_login` as declared: the body wrapped in `@no_need_login`. -/
def do_login (site : Site) (st : BrowserSt) : Except Exc Unit × BrowserSt :=
  no_need_login (do_login_body site) st

/-! ## Basic lemmas -/

theorem recEqual_refl [DecidableEq α] [DecidableEq δ] (rt : RecordKind α δ) (v : α) :
    recEqual rt v v = true := by
  unfold recEqual
  cases rt.toDict <;> simp

theorem isLoggedOut_eq_true : isLoggedOut Exc.loggedOut = true := rfl

/-- Unfolding lemma: a pull on a full-sequence attempt below the length. -/
theorem pull_det_none_lt {cut : Nat → Option Nat} {a : Nat} (seq : List α)
    (hc : cut a = none) {pos : Nat} (h : pos < seq.length) :
    pull (detProducer seq cut) a pos = Pull.item seq[pos] := by
  simp only [pull, detProducer, hc]
  rw [List.getElem?_eq_getElem h]

/-- Unfolding lemma: a pull on a full-sequence attempt at or past the end. -/
theorem pull_det_none_ge {cut : Nat → Option Nat} {a : Nat} (seq : List α)
    (hc : cut a = none) {pos : Nat} (h : seq.length ≤ pos) :
    pull (detProducer seq cut) a pos = Pull.stop := by
  simp only [pull, detProducer, hc]
  rw [List.getElem?_eq_none h]

/-- Unfolding lemma: a pull on a cut attempt strictly before the cut. -/
theorem pull_det_some_lt {cut : Nat → Option Nat} {a j : Nat} (seq : List α)
    (hc : cut a = some j) {pos : Nat} (hj : pos < j) (h : pos < seq.length) :
    pull (detProducer seq cut) a pos = Pull.item seq[pos] := by
  simp only [pull, detProducer, hc]
  rw [List.getElem?_take, if_pos hj, List.getElem?_eq_getElem h]

/-- Unfolding lemma: a pull on a cut attempt at or past the cut (or past the
end of the sequence) raises the transient `LoggedOut`. -/
theorem pull_det_some_ge {cut : Nat → Option Nat} {a j : Nat} (seq : List α)
    (hc : cut a = some j) {pos : Nat} (h : j ≤ pos ∨ seq.length ≤ pos) :
    pull (detProducer seq cut) a pos = Pull.raise Exc.loggedOut := by
  simp only [pull, detProducer, hc]
  rcases h with h | h
  · rw [List.getElem?_take, if_neg (by omega)]
  · rcases Nat.lt_or_ge pos j with hj | hj
    · rw [List.getElem?_take, if_pos hj, List.getElem?_eq_none h]
    · rw [List.getElem?_take, if_neg (by omega)]

/-- The replay loop, after confirming its first `k` comparisons, continues
as the replay of the remaining sent items with the position advanced. -/
theorem replay_shift [DecidableEq α] [DecidableEq δ] (P : Nat → Attempt α)
    (rt : RecordKind α δ) (ec : Exc → Bool) (inst : Nat) :
    ∀ (k : Nat) (sent : List α) (pos : Nat) (hk : k ≤ sent.length),
    (∀ i (hi : i < k), ∃ v, pull P inst (pos + i) = Pull.item v ∧
        recEqual rt (sent.get ⟨i, lt_of_lt_of_le hi hk⟩) v = true) →
    replay P rt ec inst sent pos = replay P rt ec inst (sent.drop k) (pos + k) := by
  intro k
  induction k with
  | zero => intro sent pos hk hmatch; simp
  | succ k ih =>
    intro sent pos hk hmatch
    cases sent with
    | nil => simp at hk
    | cons s rest =>
      obtain ⟨v, hpv, hev⟩ := hmatch 0 (Nat.succ_pos k)
      have hpv0 : pull P inst pos = Pull.item v := by
        simpa using hpv
      have hev0 : recEqual rt s v = true := hev
      rw [replay]
      simp only [hpv0, hev0, if_true]
      have step := ih rest (pos + 1) (by simpa using hk) ?_
      · rw [step, List.drop_succ_cons]
        congr 1
        omega
      · intro i hi
        obtain ⟨w, hpw, hew⟩ := hmatch (i + 1) (by omega)
        refine ⟨w, ?_, ?_⟩
        · rw [show pos + 1 + i = pos + (i + 1) by omega]
          exact hpw
        · exact hew

/-- Replay succeeds when every sent item is re-produced equal. -/
theorem replay_ok_of_matches [DecidableEq α] [DecidableEq δ] (P : Nat → Attempt α)
    (rt : RecordKind α δ) (ec : Exc → Bool) (inst : Nat) (sent : List α) (pos : Nat)
    (hmatch : ∀ i (hi : i < sent.length), ∃ v, pull P inst (pos + i) = Pull.item v ∧
        recEqual rt (sent.get ⟨i, hi⟩) v = true) :
    replay P rt ec inst sent pos = ReplayRes.ok (pos + sent.length) := by
  rw [replay_shift P rt ec inst sent.length sent pos (le_refl _) hmatch,
    List.drop_length]
  rfl

/-- Replay fails with the inconsistency error when the first `k` items are
re-confirmed and the item re-produced at position `k` compares unequal. -/
theorem replay_inconsist_at [DecidableEq α] [DecidableEq δ] (P : Nat → Attempt α)
    (rt : RecordKind α δ) (ec : Exc → Bool) (inst : Nat) (sent : List α) (pos k : Nat)
    (hk : k < sent.length)
    (hmatch : ∀ i (hi : i < k), ∃ v, pull P inst (pos + i) = Pull.item v ∧
        recEqual rt (sent.get ⟨i, lt_trans hi hk⟩) v = true)
    (w : α) (hpw : pull P inst (pos + k) = Pull.item w)
    (hew : recEqual rt (sent.get ⟨k, hk⟩) w = false) :
    replay P rt ec inst sent pos = ReplayRes.inconsist (pos + k) := by
  rw [replay_shift P rt ec inst k sent pos (le_of_lt hk) hmatch]
  have hew0 : recEqual rt sent[k] w = false := hew
  rw [List.drop_eq_getElem_cons hk, replay]
  simp only [hpw, hew0, Bool.false_eq_true, if_false]

/-- Replay fails with the short-replay error when the first `k` items are
re-confirmed and the recreated iterator then signals `StopIteration` while
sent items remain. -/
theorem replay_short_at [DecidableEq α] [DecidableEq δ] (P : Nat → Attempt α)
    (rt : RecordKind α δ) (ec : Exc → Bool) (inst : Nat) (sent : List α) (pos k : Nat)
    (hk : k < sent.length)
    (hmatch : ∀ i (hi : i < k), ∃ v, pull P inst (pos + i) = Pull.item v ∧
        recEqual rt (sent.get ⟨i, lt_trans hi hk⟩) v = true)
    (hpw : pull P inst (pos + k) = Pull.stop) :
    replay P rt ec inst sent pos = ReplayRes.shortR (pos + k) := by
  rw [replay_shift P rt ec inst k sent pos (le_of_lt hk) hmatch]
  rw [List.drop_eq_getElem_cons hk, replay]
  simp only [hpw]

/-- Replay aborts transiently when the first `k` items are re-confirmed and
the recreated iterator then raises an `exc_check` exception. -/
theorem replay_transient_at [DecidableEq α] [DecidableEq δ] (P : Nat → Attempt α)
    (rt : RecordKind α δ) (ec : Exc → Bool) (inst : Nat) (sent : List α) (pos k : Nat)
    (hk : k < sent.length)
    (hmatch : ∀ i (hi : i < k), ∃ v, pull P inst (pos + i) = Pull.item v ∧
        recEqual rt (sent.get ⟨i, lt_trans hi hk⟩) v = true)
    (e : Exc) (hpw : pull P inst (pos + k) = Pull.raise e) (he : ec e = true) :
    replay P rt ec inst sent pos = ReplayRes.transientR := by
  rw [replay_shift P rt ec inst k sent pos (le_of_lt hk) hmatch]
  rw [List.drop_eq_getElem_cons hk, replay]
  simp only [hpw, he, if_true]

/-- On a deterministic-producer instance that is not cut before `n`, the
replay of the already-emitted prefix `seq.take n` re-confirms every item
and ends with the instance at position `n`. -/
theorem replay_det_ok [DecidableEq α] [DecidableEq δ] {cut : Nat → Option Nat}
    (seq : List α) (rt : RecordKind α δ) (ec : Exc → Bool) {a n : Nat}
    (hn : n ≤ seq.length)
    (hcase : cut a = none ∨ ∃ j, cut a = some j ∧ n ≤ j) :
    replay (detProducer seq cut) rt ec a (seq.take n) 0 = ReplayRes.ok n := by
  have hlen : (seq.take n).length = n := by
    rw [List.length_take]; omega
  have h := replay_ok_of_matches (detProducer seq cut) rt ec a (seq.take n) 0 ?_
  · rw [h, hlen, Nat.zero_add]
  · intro i hi
    have hi' : i < n := by rwa [hlen] at hi
    have hil : i < seq.length := by omega
    refine ⟨seq[i], ?_, ?_⟩
    · rw [Nat.zero_add]
      rcases hcase with hc | ⟨j, hc, hj⟩
      · exact pull_det_none_lt seq hc hil
      · exact pull_det_some_lt seq hc (by omega) hil
    · have hgt : (seq.take n).get ⟨i, hi⟩ = seq[i] := List.getElem_take seq
      rw [hgt]
      exact recEqual_refl rt _

/-- On a deterministic-producer instance cut strictly before `n`, the
replay of the already-emitted prefix `seq.take n` aborts transiently. -/
theorem replay_det_transient [DecidableEq α] [DecidableEq δ] {cut : Nat → Option Nat}
    (seq : List α) (rt : RecordKind α δ) {a j n : Nat}
    (hc : cut a = some j) (hj : j < n) (hn : n ≤ seq.length) :
    replay (detProducer seq cut) rt isLoggedOut a (seq.take n) 0 =
      ReplayRes.transientR := by
  have hlen : (seq.take n).length = n := by
    rw [List.length_take]; omega
  refine replay_transient_at _ rt _ a _ 0 j (by omega) ?_ Exc.loggedOut ?_ rfl
  · intro i hi
    have hil : i < seq.length := by omega
    have hitk : i < (seq.take n).length := by omega
    refine ⟨seq[i], ?_, ?_⟩
    · rw [Nat.zero_add]
      exact pull_det_some_lt seq hc (by omega) hil
    · have hgt : (seq.take n).get ⟨i, hitk⟩ = seq[i] := List.getElem_take seq
      rw [hgt]
      exact recEqual_refl rt _
  · rw [Nat.zero_add]
    exact pull_det_some_ge seq hc (Or.inl (le_refl j))

/-! ## Step lemmas for `nextGo` -/

theorem nextGo_zero [DecidableEq α] [DecidableEq δ] (P : Nat → Attempt α)
    (rt : RecordKind α δ) (ec : Exc → Bool) (it : Option (Nat × Nat)) (ni : Nat)
    (items : List α) :
    nextGo P rt ec 0 it ni items = NxRes.fail NxErr.exhausted ⟨ni, it, items, 0⟩ := rfl

theorem nextGo_some_item [DecidableEq α] [DecidableEq δ] {P : Nat → Attempt α}
    (rt : RecordKind α δ) (ec : Exc → Bool) {inst pos : Nat} {a : α}
    (hp : pull P inst pos = Pull.item a) (r ni : Nat) (items : List α) :
    nextGo P rt ec (r + 1) (some (inst, pos)) ni items =
      NxRes.item a ⟨ni, some (inst, pos + 1), items ++ [a], r + 1⟩ := by
  rw [nextGo]
  simp only [hp]

theorem nextGo_some_stop [DecidableEq α] [DecidableEq δ] {P : Nat → Attempt α}
    (rt : RecordKind α δ) (ec : Exc → Bool) {inst pos : Nat}
    (hp : pull P inst pos = Pull.stop) (r ni : Nat) (items : List α) :
    nextGo P rt ec (r + 1) (some (inst, pos)) ni items =
      NxRes.stop ⟨ni, some (inst, pos), items, r + 1⟩ := by
  rw [nextGo]
  simp only [hp]

theorem nextGo_some_raise_t [DecidableEq α] [DecidableEq δ] {P : Nat → Attempt α}
    (rt : RecordKind α δ) {ec : Exc → Bool} {inst pos : Nat} {e : Exc}
    (hp : pull P inst pos = Pull.raise e) (he : ec e = true) (r ni : Nat)
    (items : List α) :
    nextGo P rt ec (r + 1) (some (inst, pos)) ni items =
      nextGo P rt ec r none ni items := by
  rw [nextGo]
  simp only [hp, he, if_true]

theorem nextGo_some_raise_f [DecidableEq α] [DecidableEq δ] {P : Nat → Attempt α}
    (rt : RecordKind α δ) {ec : Exc → Bool} {inst pos : Nat} {e : Exc}
    (hp : pull P inst pos = Pull.raise e) (he : ec e = false) (r ni : Nat)
    (items : List α) :
    nextGo P rt ec (r + 1) (some (inst, pos)) ni items =
      NxRes.fail (NxErr.exc e) ⟨ni, some (inst, pos), items, r + 1⟩ := by
  rw [nextGo]
  simp only [hp, he, Bool.false_eq_true, if_false]

theorem nextGo_none_ok_item [DecidableEq α] [DecidableEq δ] {P : Nat → Attempt α}
    {rt : RecordKind α δ} {ec : Exc → Bool} {inst pos : Nat} {a : α} {items : List α}
    (hrep : replay P rt ec inst items 0 = ReplayRes.ok pos)
    (hp : pull P inst pos = Pull.item a) (r : Nat) :
    nextGo P rt ec (r + 1) none inst items =
      NxRes.item a ⟨inst + 1, some (inst, pos + 1), items ++ [a], r + 1⟩ := by
  rw [nextGo]
  simp only [hrep, hp]

theorem nextGo_none_ok_stop [DecidableEq α] [DecidableEq δ] {P : Nat → Attempt α}
    {rt : RecordKind α δ} {ec : Exc → Bool} {inst pos : Nat} {items : List α}
    (hrep : replay P rt ec inst items 0 = ReplayRes.ok pos)
    (hp : pull P inst pos = Pull.stop) (r : Nat) :
    nextGo P rt ec (r + 1) none inst items =
      NxRes.stop ⟨inst + 1, some (inst, pos), items, r + 1⟩ := by
  rw [nextGo]
  simp only [hrep, hp]

theorem nextGo_none_ok_raise_t [DecidableEq α] [DecidableEq δ] {P : Nat → Attempt α}
    {rt : RecordKind α δ} {ec : Exc → Bool} {inst pos : Nat} {e : Exc} {items : List α}
    (hrep : replay P rt ec inst items 0 = ReplayRes.ok pos)
    (hp : pull P inst pos = Pull.raise e) (he : ec e = true) (r : Nat) :
    nextGo P rt ec (r + 1) none inst items = nextGo P rt ec r none (inst + 1) items := by
  rw [nextGo]
  simp only [hrep, hp, he, if_true]

theorem nextGo_none_ok_raise_f [DecidableEq α] [DecidableEq δ] {P : Nat → Attempt α}
    {rt : RecordKind α δ} {ec : Exc → Bool} {inst pos : Nat} {e : Exc} {items : List α}
    (hrep : replay P rt ec inst items 0 = ReplayRes.ok pos)
    (hp : pull P inst pos = Pull.raise e) (he : ec e = false) (r : Nat) :
    nextGo P rt ec (r + 1) none inst items =
      NxRes.fail (NxErr.exc e) ⟨inst + 1, some (inst, pos), items, r + 1⟩ := by
  rw [nextGo]
  simp only [hrep, hp, he, Bool.false_eq_true, if_false]

theorem nextGo_none_inconsist [DecidableEq α] [DecidableEq δ] {P : Nat → Attempt α}
    {rt : RecordKind α δ} {ec : Exc → Bool} {inst pos : Nat} {items : List α}
    (hrep : replay P rt ec inst items 0 = ReplayRes.inconsist pos) (r : Nat) :
    nextGo P rt ec (r + 1) none inst items =
      NxRes.fail NxErr.inconsistent ⟨inst + 1, some (inst, pos + 1), items, r + 1⟩ := by
  rw [nextGo]
  simp only [hrep]

theorem nextGo_none_short [DecidableEq α] [DecidableEq δ] {P : Nat → Attempt α}
    {rt : RecordKind α δ} {ec : Exc → Bool} {inst pos : Nat} {items : List α}
    (hrep : replay P rt ec inst items 0 = ReplayRes.shortR pos) (r : Nat) :
    nextGo P rt ec (r + 1) none inst items =
      NxRes.fail NxErr.shortReplay ⟨inst + 1, some (inst, pos), items, r + 1⟩ := by
  rw [nextGo]
  simp only [hrep]

theorem nextGo_none_transient [DecidableEq α] [DecidableEq δ] {P : Nat → Attempt α}
    {rt : RecordKind α δ} {ec : Exc → Bool} {inst : Nat} {items : List α}
    (hrep : replay P rt ec inst items 0 = ReplayRes.transientR) (r : Nat) :
    nextGo P rt ec (r + 1) none inst items = nextGo P rt ec r none (inst + 1) items := by
  rw [nextGo]
  simp only [hrep]

/-! ## The no-duplication invariant -/

theorem take_succ_of_lt (seq : List α) {n : Nat} (h : n < seq.length) :
    seq.take (n + 1) = seq.take n ++ [seq[n]] := by
  rw [List.take_succ, List.getElem?_eq_getElem h]
  rfl

/-- Invariant of a live `iter_retry` over the deterministic faulty
producer: the current instance `inst` has answered exactly as many pulls as
records were emitted, the emitted records are exactly the prefix
`seq.take n`, and the remaining budget strictly covers the transient
failures still to come before the first fault-free attempt `f`. -/
def GoodSt (seq : List α) (f n : Nat) (st : IterRetry α) : Prop :=
  ∃ inst, st.it = some (inst, n) ∧ st.nextInst = inst + 1 ∧
    st.items = seq.take n ∧ n ≤ seq.length ∧ inst ≤ f ∧ f - inst < st.remaining

/-- Recreation phase, success case: starting with no live iterator, emitted
prefix `seq.take n` with `n` short of the end, and enough budget to reach
the fault-free attempt `f`, the next pull emits exactly `seq[n]` and
re-establishes the invariant. -/
theorem nextGo_none_det_item [DecidableEq α] [DecidableEq δ] {cut : Nat → Option Nat}
    (seq : List α) (rt : RecordKind α δ) {f : Nat}
    (hf : cut f = none) :
    ∀ r a, a ≤ f → f - a < r → ∀ n (hn : n < seq.length),
    ∃ st', nextGo (detProducer seq cut) rt isLoggedOut r none a (seq.take n) =
        NxRes.item seq[n] st' ∧ GoodSt seq f (n + 1) st' := by
  intro r
  induction r with
  | zero => intro a ha hr; omega
  | succ r ih =>
    intro a ha hr n hn
    cases hca : cut a with
    | none =>
      have hrep := replay_det_ok seq rt isLoggedOut (le_of_lt hn) (Or.inl hca)
      have hp := pull_det_none_lt seq hca hn
      refine ⟨_, nextGo_none_ok_item hrep hp r, a, rfl, rfl, ?_, by omega, ha, ?_⟩
      · exact (take_succ_of_lt seq hn).symm
      · show f - a < r + 1
        omega
    | some j =>
      have haf : a < f := by
        rcases Nat.lt_or_ge a f with h | h
        · exact h
        · have haf' : a = f := le_antisymm ha h
          rw [haf', hf] at hca
          cases hca
      rcases Nat.lt_or_ge n j with hnj | hnj
      · have hrep := replay_det_ok seq rt isLoggedOut (le_of_lt hn)
          (Or.inr ⟨j, hca, le_of_lt hnj⟩)
        have hp := pull_det_some_lt seq hca hnj hn
        refine ⟨_, nextGo_none_ok_item hrep hp r, a, rfl, rfl, ?_, by omega, ha, ?_⟩
        · exact (take_succ_of_lt seq hn).symm
        · show f - a < r + 1
          omega
      · rcases Nat.lt_or_ge j n with hjn | hjn
        · have hrep := replay_det_transient seq rt hca hjn (le_of_lt hn)
          rw [nextGo_none_transient hrep r]
          exact ih (a + 1) (by omega) (by omega) n hn
        · have hrep := replay_det_ok seq rt isLoggedOut (le_of_lt hn)
            (Or.inr ⟨j, hca, by omega⟩)
          have hp : pull (detProducer seq cut) a n = Pull.raise Exc.loggedOut :=
            pull_det_some_ge seq hca (Or.inl (by omega))
          rw [nextGo_none_ok_raise_t hrep hp rfl r]
          exact ih (a + 1) (by omega) (by omega) n hn

/-- Recreation phase, end-of-sequence case: with the whole sequence already
emitted and enough budget to reach the fault-free attempt `f`, the next
pull signals `StopIteration`. -/
theorem nextGo_none_det_stop [DecidableEq α] [DecidableEq δ] {cut : Nat → Option Nat}
    (seq : List α) (rt : RecordKind α δ) {f : Nat}
    (hf : cut f = none) :
    ∀ r a, a ≤ f → f - a < r →
    ∃ st', nextGo (detProducer seq cut) rt isLoggedOut r none a
        (seq.take seq.length) = NxRes.stop st' := by
  intro r
  induction r with
  | zero => intro a ha hr; omega
  | succ r ih =>
    intro a ha hr
    cases hca : cut a with
    | none =>
      have hrep := replay_det_ok seq rt isLoggedOut (le_refl _) (Or.inl hca)
      have hp := pull_det_none_ge seq hca (le_refl _)
      exact ⟨_, nextGo_none_ok_stop hrep hp r⟩
    | some j =>
      have haf : a < f := by
        rcases Nat.lt_or_ge a f with h | h
        · exact h
        · have haf' : a = f := le_antisymm ha h
          rw [haf', hf] at hca
          cases hca
      rcases Nat.lt_or_ge j seq.length with hjl | hjl
      · have hrep := replay_det_transient seq rt hca hjl (le_refl _)
        rw [nextGo_none_transient hrep r]
        exact ih (a + 1) (by omega) (by omega)
      · have hrep := replay_det_ok seq rt isLoggedOut (le_refl _)
          (Or.inr ⟨j, hca, hjl⟩)
        have hp := pull_det_some_ge seq hca (Or.inr (le_refl _))
        rw [nextGo_none_ok_raise_t hrep hp rfl r]
        exact ih (a + 1) (by omega) (by omega)

/-- One consumer pull from a good state strictly inside the sequence emits
exactly the next record of the true sequence, re-establishing the
invariant. -/
theorem iterNext_good_item [DecidableEq α] [DecidableEq δ] {cut : Nat → Option Nat}
    (seq : List α) (rt : RecordKind α δ) {f : Nat}
    (hf : cut f = none)
    {n : Nat} {st : IterRetry α} (hg : GoodSt seq f n st) (hn : n < seq.length) :
    ∃ st', iterNext (detProducer seq cut) rt isLoggedOut st = NxRes.item seq[n] st' ∧
      GoodSt seq f (n + 1) st' := by
  obtain ⟨inst, hit, hni, hitems, hnl, hif, hrem⟩ := hg
  obtain ⟨r, hr⟩ : ∃ r, st.remaining = r + 1 := ⟨st.remaining - 1, by omega⟩
  unfold iterNext
  rw [hit, hni, hitems, hr]
  cases hca : cut inst with
  | none =>
    have hp := pull_det_none_lt seq hca hn
    refine ⟨_, nextGo_some_item rt isLoggedOut hp r (inst + 1) (seq.take n),
      inst, rfl, rfl, ?_, by omega, hif, ?_⟩
    · exact (take_succ_of_lt seq hn).symm
    · show f - inst < r + 1
      omega
  | some j =>
    rcases Nat.lt_or_ge n j with hnj | hnj
    · have hp := pull_det_some_lt seq hca hnj hn
      refine ⟨_, nextGo_some_item rt isLoggedOut hp r (inst + 1) (seq.take n),
        inst, rfl, rfl, ?_, by omega, hif, ?_⟩
      · exact (take_succ_of_lt seq hn).symm
      · show f - inst < r + 1
        omega
    · have hinstf : inst < f := by
        rcases Nat.lt_or_ge inst f with h | h
        · exact h
        · have heq : inst = f := le_antisymm hif h
          rw [heq, hf] at hca
          cases hca
      have hp := pull_det_some_ge seq hca (Or.inl hnj)
      rw [nextGo_some_raise_t rt hp rfl r (inst + 1) (seq.take n)]
      exact nextGo_none_det_item seq rt hf r (inst + 1) (by omega) (by omega) n hn

/-- One consumer pull from a good state at the end of the sequence signals
`StopIteration`. -/
theorem iterNext_good_stop [DecidableEq α] [DecidableEq δ] {cut : Nat → Option Nat}
    (seq : List α) (rt : RecordKind α δ) {f : Nat}
    (hf : cut f = none)
    {st : IterRetry α} (hg : GoodSt seq f seq.length st) :
    ∃ st', iterNext (detProducer seq cut) rt isLoggedOut st = NxRes.stop st' := by
  obtain ⟨inst, hit, hni, hitems, hnl, hif, hrem⟩ := hg
  obtain ⟨r, hr⟩ : ∃ r, st.remaining = r + 1 := ⟨st.remaining - 1, by omega⟩
  unfold iterNext
  rw [hit, hni, hitems, hr]
  cases hca : cut inst with
  | none =>
    have hp := pull_det_none_ge seq hca (le_refl _)
    exact ⟨_, nextGo_some_stop rt isLoggedOut hp r (inst + 1) (seq.take seq.length)⟩
  | some j =>
    have hinstf : inst < f := by
      rcases Nat.lt_or_ge inst f with h | h
      · exact h
      · have heq : inst = f := le_antisymm hif h
        rw [heq, hf] at hca
        cases hca
    have hp := pull_det_some_ge seq hca (Or.inr (le_refl _))
    rw [nextGo_some_raise_t rt hp rfl r (inst + 1) (seq.take seq.length)]
    exact nextGo_none_det_stop seq rt hf r (inst + 1) (by omega) (by omega)

/-- Draining from a good state delivers exactly the not-yet-emitted suffix
of the true sequence, in order, and then ends normally. -/
theorem drain_good [DecidableEq α] [DecidableEq δ] {cut : Nat → Option Nat}
    (seq : List α) (rt : RecordKind α δ) {f : Nat}
    (hf : cut f = none) :
    ∀ fuel n (st : IterRetry α), GoodSt seq f n st → seq.length - n < fuel →
    ∃ stF, drain (detProducer seq cut) rt isLoggedOut fuel st =
        (seq.drop n, DrainEnd.ended stF) := by
  intro fuel
  induction fuel with
  | zero => intro n st hg hfu; omega
  | succ fuel ih =>
    intro n st hg hfu
    rcases Nat.lt_or_ge n seq.length with hn | hn
    · obtain ⟨st', hstep, hg'⟩ := iterNext_good_item seq rt hf hg hn
      obtain ⟨stF, hdr⟩ := ih (n + 1) st' hg' (by omega)
      refine ⟨stF, ?_⟩
      rw [drain]
      simp only [hstep, hdr]
      rw [List.drop_eq_getElem_cons hn]
    · have hnl : n ≤ seq.length := by
        obtain ⟨inst, _, _, _, hnl, _, _⟩ := hg
        exact hnl
      have hnn : n = seq.length := by omega
      subst hnn
      obtain ⟨st', hstep⟩ := iterNext_good_stop seq rt hf hg
      refine ⟨st', ?_⟩
      rw [drain]
      simp only [hstep]
      rw [List.drop_length]

/-! ## The exhaustion path -/

/-- Invariant of a live `iter_retry` over an everywhere-faulty producer
with total budget `R`: the number of factory calls made plus the remaining
budget is the constant `R`, and the emitted records are the prefix
`seq.take n`. -/
def FailSt (seq : List α) (R n : Nat) (st : IterRetry α) : Prop :=
  ∃ inst rem, st = ⟨inst + 1, some (inst, n), seq.take n, rem⟩ ∧
    n ≤ seq.length ∧ 1 ≤ rem ∧ inst + rem = R

/-- Recreation phase over an everywhere-faulty producer: either some later
instance still manages to emit the next record (costing one budget unit per
consumed instance), or the budget runs out and the exhaustion error is
raised with exactly `a + r` factory calls made in total. -/
theorem nextGo_none_allfail [DecidableEq α] [DecidableEq δ] {cut : Nat → Option Nat}
    (seq : List α) (rt : RecordKind α δ) (hall : ∀ x, (cut x).isSome) :
    ∀ r a n, n ≤ seq.length →
    (∃ g b, a ≤ g ∧ g - a < r ∧ n < seq.length ∧ seq[n]? = some b ∧
       nextGo (detProducer seq cut) rt isLoggedOut r none a (seq.take n) =
         NxRes.item b ⟨g + 1, some (g, n + 1), seq.take (n + 1), r - (g - a)⟩)
    ∨ nextGo (detProducer seq cut) rt isLoggedOut r none a (seq.take n) =
        NxRes.fail NxErr.exhausted ⟨a + r, none, seq.take n, 0⟩ := by
  intro r
  induction r with
  | zero =>
    intro a n hn
    exact Or.inr rfl
  | succ r ih =>
    intro a n hn
    obtain ⟨j, hca⟩ := Option.isSome_iff_exists.mp (hall a)
    by_cases hnj : n < j ∧ n < seq.length
    · obtain ⟨hnj1, hnj2⟩ := hnj
      have hrep := replay_det_ok seq rt isLoggedOut hn (Or.inr ⟨j, hca, le_of_lt hnj1⟩)
      have hp := pull_det_some_lt seq hca hnj1 hnj2
      refine Or.inl ⟨a, seq[n], le_refl a, by omega, hnj2,
        List.getElem?_eq_getElem hnj2, ?_⟩
      rw [nextGo_none_ok_item hrep hp r, take_succ_of_lt seq hnj2, Nat.sub_self,
        Nat.sub_zero]
    · have hfail : nextGo (detProducer seq cut) rt isLoggedOut (r + 1) none a
          (seq.take n) = nextGo (detProducer seq cut) rt isLoggedOut r none (a + 1)
          (seq.take n) := by
        rcases Nat.lt_or_ge j n with hjn | hjn
        · exact nextGo_none_transient (replay_det_transient seq rt hca hjn hn) r
        · have hrep := replay_det_ok seq rt isLoggedOut hn (Or.inr ⟨j, hca, hjn⟩)
          have hp : pull (detProducer seq cut) a n = Pull.raise Exc.loggedOut := by
            refine pull_det_some_ge seq hca ?_
            rcases Nat.lt_or_ge n j with h1 | h1
            · right
              omega
            · left
              omega
          exact nextGo_none_ok_raise_t hrep hp rfl r
      rw [hfail]
      rcases ih (a + 1) n hn with ⟨g, b, hag, hgr, hns, hb, heq⟩ | heq
      · have harith : r - (g - (a + 1)) = r + 1 - (g - a) := by omega
        rw [harith] at heq
        exact Or.inl ⟨g, b, by omega, by omega, hns, hb, heq⟩
      · have harith : a + 1 + r = a + (r + 1) := by omega
        rw [harith] at heq
        exact Or.inr heq

/-- One consumer pull over an everywhere-faulty producer from a `FailSt`
state: either the next record of the true prefix is emitted, or the budget
is exhausted with exactly `R` factory calls made in total. -/
theorem iterNext_allfail [DecidableEq α] [DecidableEq δ] {cut : Nat → Option Nat}
    (seq : List α) (rt : RecordKind α δ) (hall : ∀ x, (cut x).isSome)
    {R n : Nat} {st : IterRetry α} (hfs : FailSt seq R n st) :
    (∃ b st', n < seq.length ∧ seq[n]? = some b ∧
       iterNext (detProducer seq cut) rt isLoggedOut st = NxRes.item b st' ∧
       FailSt seq R (n + 1) st')
    ∨ iterNext (detProducer seq cut) rt isLoggedOut st =
        NxRes.fail NxErr.exhausted ⟨R, none, seq.take n, 0⟩ := by
  obtain ⟨inst, rem, hst, hnl, hrem1, hsum⟩ := hfs
  obtain ⟨j, hca⟩ := Option.isSome_iff_exists.mp (hall inst)
  obtain ⟨r, hr⟩ : ∃ r, rem = r + 1 := ⟨rem - 1, by omega⟩
  subst hst
  unfold iterNext
  simp only
  rw [hr]
  by_cases hnj : n < j ∧ n < seq.length
  · obtain ⟨hnj1, hnj2⟩ := hnj
    have hp := pull_det_some_lt seq hca hnj1 hnj2
    refine Or.inl ⟨seq[n], _,
      hnj2, List.getElem?_eq_getElem hnj2,
      nextGo_some_item rt isLoggedOut hp r (inst + 1) (seq.take n), inst, r + 1, ?_,
      by omega, by omega, by omega⟩
    rw [take_succ_of_lt seq hnj2]
  · have hp : pull (detProducer seq cut) inst n = Pull.raise Exc.loggedOut := by
      refine pull_det_some_ge seq hca ?_
      rcases Nat.lt_or_ge n j with h1 | h1
      · right
        omega
      · left
        omega
    rw [nextGo_some_raise_t rt hp rfl r (inst + 1) (seq.take n)]
    rcases nextGo_none_allfail seq rt hall r (inst + 1) n hnl with
      ⟨g, b, hag, hgr, hns, hb, heq⟩ | heq
    · exact Or.inl ⟨b, _, hns, hb, heq, g, r - (g - (inst + 1)), rfl, by omega,
        by omega, by omega⟩
    · have harith : inst + 1 + r = R := by omega
      rw [harith] at heq
      exact Or.inr heq

/-- Draining over an everywhere-faulty producer from a `FailSt` state ends
in the exhaustion error after exactly `R` factory calls in total, having
emitted some further slice of the true prefix of the sequence. -/
theorem drain_allfail [DecidableEq α] [DecidableEq δ] {cut : Nat → Option Nat}
    (seq : List α) (rt : RecordKind α δ) (hall : ∀ x, (cut x).isSome) {R : Nat} :
    ∀ fuel n (st : IterRetry α), FailSt seq R n st → seq.length - n < fuel →
    ∃ nF, n ≤ nF ∧ nF ≤ seq.length ∧
      drain (detProducer seq cut) rt isLoggedOut fuel st =
        ((seq.take nF).drop n, DrainEnd.failed NxErr.exhausted ⟨R, none, seq.take nF, 0⟩) := by
  intro fuel
  induction fuel with
  | zero => intro n st hfs hfu; omega
  | succ fuel ih =>
    intro n st hfs hfu
    rcases iterNext_allfail seq rt hall hfs with ⟨b, st', hns, hb, hstep, hfs'⟩ | hstep
    · obtain ⟨nF, h1, h2, hdr⟩ := ih (n + 1) st' hfs' (by omega)
      refine ⟨nF, by omega, h2, ?_⟩
      rw [drain]
      simp only [hstep, hdr]
      have hlen : n < (seq.take nF).length := by
        rw [List.length_take]
        omega
      rw [List.drop_eq_getElem_cons hlen, List.getElem_take]
      rw [List.getElem?_eq_getElem hns] at hb
      injection hb with hb'
      rw [hb']
    · obtain ⟨inst, rem, hst, hnl, hrem1, hsum⟩ := hfs
      refine ⟨n, le_refl n, hnl, ?_⟩
      rw [drain]
      simp only [hstep]
      rw [List.drop_eq_nil_of_le (by rw [List.length_take]; omega)]

/-! ## Lemmas about the `retry` wrapper loop -/

/-- The wrapper loop walks past a block of transient factory raises, one
loop iteration (and one budget unit) per raise. -/
theorem retryGo_skip (fac : Nat → FacOut α β) :
    ∀ (c i t : Nat), (∀ j, j < c → fac (i + j) = FacOut.raise Exc.loggedOut) →
    c ≤ t → retryGo fac isLoggedOut i t = retryGo fac isLoggedOut (i + c) (t - c) := by
  intro c
  induction c with
  | zero => intro i t h hc; simp
  | succ c ih =>
    intro i t h hc
    obtain ⟨t', ht⟩ : ∃ t', t = t' + 1 := ⟨t - 1, by omega⟩
    subst ht
    have h0 : fac i = FacOut.raise Exc.loggedOut := by
      have h0' := h 0 (Nat.succ_pos c)
      simpa using h0'
    rw [retryGo]
    simp only [h0, isLoggedOut_eq_true, if_true]
    have e1 : i + (c + 1) = (i + 1) + c := by omega
    have e2 : (t' + 1) - (c + 1) = t' - c := by omega
    rw [e1, e2]
    refine ih (i + 1) t' ?_ (by omega)
    intro j hj
    have hjj := h (j + 1) (by omega)
    rwa [show i + 1 + j = i + (j + 1) by omega]

/-- One wrapper-loop step on a factory call returning a plain value. -/
theorem retryGo_value {fac : Nat → FacOut α β} {ec : Exc → Bool} {k : Nat} {b : β}
    (h : fac k = FacOut.value b) (t : Nat) :
    retryGo fac ec k (t + 1) = Except.ok (RetryRet.value b) := by
  rw [retryGo]
  simp only [h]

/-- One wrapper-loop step on a factory call returning an iterator: the
wrapper returns `iter_retry(cb, value=ret, remaining=i)` where `i` is the
current countdown. -/
theorem retryGo_gen {fac : Nat → FacOut α β} {ec : Exc → Bool} {k : Nat}
    (h : fac k = FacOut.gen) (t : Nat) :
    retryGo fac ec k (t + 1) =
      Except.ok (RetryRet.iterator ⟨k + 1, some (k, 0), [], t + 1⟩) := by
  rw [retryGo]
  simp only [h]

/-- One wrapper-loop step on a factory call raising a non-`exc_check`
exception: it propagates immediately. -/
theorem retryGo_raise_f {fac : Nat → FacOut α β} {ec : Exc → Bool} {k : Nat} {e : Exc}
    (h : fac k = FacOut.raise e) (he : ec e = false) (t : Nat) :
    retryGo fac ec k (t + 1) = Except.error (RetryErr.exc e) := by
  rw [retryGo]
  simp only [h, he, Bool.false_eq_true, if_false]

/-- Whether a consumer-driven iteration ended normally. -/
def isEnded : DrainEnd α → Bool
  | DrainEnd.ended _ => true
  | _ => false

/-! ## Claim theorems -/

/-- C1.  For a retry-wrapped sequence operation (factory returning an
iterator on its first call) over a deterministic underlying producer, and
any schedule of transient failures in which attempt `f` is fault-free,
every attempt before `f` fails transiently (so exactly `f` failures occur)
and `f` is below the retry budget `r`, the consumer observes each record
exactly once, in the order the producer originally produced them: the
drained output is exactly `seq` and the iteration ends normally. -/
theorem c1_retry_no_duplication {α β δ : Type} [DecidableEq α] [DecidableEq δ]
    (fac : Nat → FacOut α β) (seq : List α) (cut : Nat → Option Nat)
    (rt : RecordKind α δ) (f r : Nat) (hfac : fac 0 = FacOut.gen)
    (hf : cut f = none) (_hbef : ∀ x, x < f → (cut x).isSome) (hfr : f < r) :
    retry fac isLoggedOut r = Except.ok (RetryRet.iterator ⟨1, some (0, 0), [], r⟩) ∧
    (drain (detProducer seq cut) rt isLoggedOut (seq.length + 1)
        ⟨1, some (0, 0), [], r⟩).1 = seq ∧
    isEnded (drain (detProducer seq cut) rt isLoggedOut (seq.length + 1)
        ⟨1, some (0, 0), [], r⟩).2 = true := by
  obtain ⟨t, ht⟩ : ∃ t, r = t + 1 := ⟨r - 1, by omega⟩
  refine ⟨?_, ?_⟩
  · unfold retry
    rw [ht]
    exact retryGo_gen hfac t
  · have hgs : GoodSt seq f 0 ⟨1, some (0, 0), [], r⟩ :=
      ⟨0, rfl, rfl, rfl, Nat.zero_le _, Nat.zero_le _, show f - 0 < r by omega⟩
    obtain ⟨stF, hdr⟩ := drain_good seq rt hf (seq.length + 1) 0 _ hgs (by omega)
    rw [List.drop_zero] at hdr
    rw [hdr]
    exact ⟨rfl, rfl⟩

/-- C2.  If, during replay on a recreated producer instance, the first `k`
re-produced values compare equal to the previously emitted records but the
value at position `k` compares unequal, the pull fails with the
inconsistency error (`BrowserUnavailable('Site replied inconsistently
between retries')`, the spec's `InconsistentRetryError`) even though budget
remains, and the consumer receives no further records. -/
theorem c2_inconsistent_replay {α δ : Type} [DecidableEq α] [DecidableEq δ]
    (P : Nat → Attempt α) (rt : RecordKind α δ) (ec : Exc → Bool)
    (inst k r fuel : Nat) (items : List α) (hk : k < items.length)
    (hmatch : ∀ i (hi : i < k), ∃ v, pull P inst i = Pull.item v ∧
        recEqual rt (items.get ⟨i, lt_trans hi hk⟩) v = true)
    (w : α) (hpw : pull P inst k = Pull.item w)
    (hew : recEqual rt (items.get ⟨k, hk⟩) w = false) :
    iterNext P rt ec ⟨inst, none, items, r + 1⟩ =
      NxRes.fail NxErr.inconsistent ⟨inst + 1, some (inst, k + 1), items, r + 1⟩ ∧
    drain P rt ec (fuel + 1) ⟨inst, none, items, r + 1⟩ =
      ([], DrainEnd.failed NxErr.inconsistent ⟨inst + 1, some (inst, k + 1), items, r + 1⟩) := by
  have hrep : replay P rt ec inst items 0 = ReplayRes.inconsist k := by
    have h := replay_inconsist_at P rt ec inst items 0 k hk ?_ w ?_ hew
    · rwa [Nat.zero_add] at h
    · intro i hi
      obtain ⟨v, h1, h2⟩ := hmatch i hi
      exact ⟨v, by rwa [Nat.zero_add], h2⟩
    · rwa [Nat.zero_add]
  have hstep : iterNext P rt ec ⟨inst, none, items, r + 1⟩ =
      NxRes.fail NxErr.inconsistent ⟨inst + 1, some (inst, k + 1), items, r + 1⟩ :=
    nextGo_none_inconsist hrep r
  refine ⟨hstep, ?_⟩
  rw [drain]
  simp only [hstep]

/-- C3.  If, during replay on a recreated producer instance, the first `k`
re-produced values compare equal to the previously emitted records but the
instance then signals end-of-data while emitted records remain
(`k < items.length`), the pull fails with the short-replay error
(`BrowserUnavailable('Site replied fewer elements than last iteration')`,
the spec's `ShortReplayError`): the iteration neither ends normally nor
retries — the budget `r + 1` is still intact in the failure state. -/
theorem c3_short_replay {α δ : Type} [DecidableEq α] [DecidableEq δ]
    (P : Nat → Attempt α) (rt : RecordKind α δ) (ec : Exc → Bool)
    (inst k r fuel : Nat) (items : List α) (hk : k < items.length)
    (hmatch : ∀ i (hi : i < k), ∃ v, pull P inst i = Pull.item v ∧
        recEqual rt (items.get ⟨i, lt_trans hi hk⟩) v = true)
    (hpw : pull P inst k = Pull.stop) :
    iterNext P rt ec ⟨inst, none, items, r + 1⟩ =
      NxRes.fail NxErr.shortReplay ⟨inst + 1, some (inst, k), items, r + 1⟩ ∧
    drain P rt ec (fuel + 1) ⟨inst, none, items, r + 1⟩ =
      ([], DrainEnd.failed NxErr.shortReplay ⟨inst + 1, some (inst, k), items, r + 1⟩) := by
  have hrep : replay P rt ec inst items 0 = ReplayRes.shortR k := by
    have h := replay_short_at P rt ec inst items 0 k hk ?_ ?_
    · rwa [Nat.zero_add] at h
    · intro i hi
      obtain ⟨v, h1, h2⟩ := hmatch i hi
      exact ⟨v, by rwa [Nat.zero_add], h2⟩
    · rwa [Nat.zero_add]
  have hstep : iterNext P rt ec ⟨inst, none, items, r + 1⟩ =
      NxRes.fail NxErr.shortReplay ⟨inst + 1, some (inst, k), items, r + 1⟩ :=
    nextGo_none_short hrep r
  refine ⟨hstep, ?_⟩
  rw [drain]
  simp only [hstep]

/-- C4.  For a retry-wrapped sequence operation in which every attempt
raises a transient failure, the operation fails with the exhaustion error
(`BrowserUnavailable('Site did not reply successfully after multiple
tries')`, the spec's `ExhaustedRetries`) after exactly `tries`
(`max_attempts`) creations of the underlying producer — the final state
records `tries` factory calls and budget `0` — and the records exposed to
the consumer before the failure are a prefix of the true sequence. -/
theorem c4_budget_exhaustion {α β δ : Type} [DecidableEq α] [DecidableEq δ]
    (fac : Nat → FacOut α β) (seq : List α) (cut : Nat → Option Nat)
    (rt : RecordKind α δ) (tries : Nat) (hfac : fac 0 = FacOut.gen)
    (hall : ∀ x, (cut x).isSome) (h1 : 1 ≤ tries) :
    retry fac isLoggedOut tries =
      Except.ok (RetryRet.iterator ⟨1, some (0, 0), [], tries⟩) ∧
    (drain (detProducer seq cut) rt isLoggedOut (seq.length + 1)
        ⟨1, some (0, 0), [], tries⟩).1 <+: seq ∧
    (drain (detProducer seq cut) rt isLoggedOut (seq.length + 1)
        ⟨1, some (0, 0), [], tries⟩).2 =
      DrainEnd.failed NxErr.exhausted
        ⟨tries, none,
         (drain (detProducer seq cut) rt isLoggedOut (seq.length + 1)
           ⟨1, some (0, 0), [], tries⟩).1, 0⟩ := by
  obtain ⟨t, ht⟩ : ∃ t, tries = t + 1 := ⟨tries - 1, by omega⟩
  refine ⟨?_, ?_⟩
  · unfold retry
    rw [ht]
    exact retryGo_gen hfac t
  · have hfs : FailSt seq tries 0 ⟨1, some (0, 0), [], tries⟩ :=
      ⟨0, tries, rfl, Nat.zero_le _, by omega, show 0 + tries = tries by omega⟩
    obtain ⟨nF, h0n, hnF, hdr⟩ :=
      drain_allfail seq rt hall (seq.length + 1) 0 _ hfs (by omega)
    rw [List.drop_zero] at hdr
    rw [hdr]
    exact ⟨List.take_prefix nF seq, rfl⟩

/-- C5.  Single-value retry under the default budget of 4 total attempts:
a factory that raises the transient exception on its first 3 invocations
and returns a plain value on the 4th makes the wrapper return that value
unchanged; a factory that raises the transient exception on all 4
invocations makes the wrapper fail with the exhaustion error. -/
theorem c5_single_value_retry {α β : Type} (fac fac2 : Nat → FacOut α β) (v : β)
    (h3 : ∀ j, j < 3 → fac j = FacOut.raise Exc.loggedOut)
    (hv : fac 3 = FacOut.value v)
    (h4 : ∀ j, j < 4 → fac2 j = FacOut.raise Exc.loggedOut) :
    retry fac isLoggedOut 4 = Except.ok (RetryRet.value v) ∧
    retry fac2 isLoggedOut 4 = Except.error RetryErr.unavailable := by
  constructor
  · unfold retry
    rw [retryGo_skip fac 3 0 4 (fun j hj => by rw [Nat.zero_add]; exact h3 j hj)
      (by omega)]
    exact retryGo_value hv 0
  · unfold retry
    rw [retryGo_skip fac2 4 0 4 (fun j hj => by rw [Nat.zero_add]; exact h4 j hj)
      (by omega)]
    rfl

/-- C6.  A non-`exc_check` exception propagates immediately: raised by the
factory on attempt `k` (after transient raises), the wrapper fails with it
at once regardless of the budget left; raised during iteration, the pull
fails with it leaving the factory-call count `ni` and the budget `r + 1`
unchanged — no re-invocation, no budget consumed. -/
theorem c6_nontransient_propagates {α β δ : Type} [DecidableEq α] [DecidableEq δ]
    (fac : Nat → FacOut α β) (P : Nat → Attempt α) (rt : RecordKind α δ)
    (e : Exc) (he : isLoggedOut e = false) (k tries : Nat) (hk : k < tries)
    (hfk : ∀ j, j < k → fac j = FacOut.raise Exc.loggedOut)
    (hke : fac k = FacOut.raise e)
    (ni inst pos r : Nat) (items : List α)
    (hp : pull P inst pos = Pull.raise e) :
    retry fac isLoggedOut tries = Except.error (RetryErr.exc e) ∧
    iterNext P rt isLoggedOut ⟨ni, some (inst, pos), items, r + 1⟩ =
      NxRes.fail (NxErr.exc e) ⟨ni, some (inst, pos), items, r + 1⟩ := by
  constructor
  · unfold retry
    rw [retryGo_skip fac k 0 tries (fun j hj => by rw [Nat.zero_add]; exact hfk j hj)
      (by omega)]
    obtain ⟨t, ht⟩ : ∃ t, tries - k = t + 1 := ⟨tries - k - 1, by omega⟩
    rw [Nat.zero_add, ht]
    exact retryGo_raise_f hke he t
  · exact nextGo_some_raise_f rt hp he r ni items

/-- C7.  If after submitting the credentials the current page is still
classified as the login page, `do_login` raises
`BrowserIncorrectPassword` (the spec's `InvalidCredentials`); and the
retry machinery never retries this exception: a retry-wrapped operation
raising it fails with it immediately, whatever budget `t + 1` it has. -/
theorem c7_invalid_credentials {α β : Type} (site : Site) (st : BrowserSt) (t : Nat)
    (h : site.afterLogin site.afterBase = PageKind.loginPage) :
    (do_login site st).1 = Except.error Exc.incorrectPassword ∧
    retry (fun _ => (FacOut.raise Exc.incorrectPassword : FacOut α β)) isLoggedOut
        (t + 1) = Except.error (RetryErr.exc Exc.incorrectPassword) := by
  constructor
  · simp only [do_login, no_need_login, do_login_body, h]
    rfl
  · exact retryGo_raise_f rfl rfl t

/-- The body of `do_login` never touches the `no_login` counter. -/
theorem do_login_body_no_login (site : Site) (s : BrowserSt) :
    ((do_login_body site s).2).no_login = s.no_login := by
  unfold do_login_body
  dsimp only
  split <;> rfl

/-- C8.  The `no_need_login` guard runs the wrapped routine with the
`no_login` counter strictly positive (incremented by one), and restores the
counter to its previous value afterwards on every path — the model returns
the final state both when the routine returns and when it raises, and the
decrement is applied unconditionally, like the Python `finally`.  In
particular `do_login`, which is wrapped in the guard, leaves the counter
unchanged. -/
theorem c8_login_depth_guard {β : Type} (func : BrowserSt → Except Exc β × BrowserSt)
    (st : BrowserSt) (site : Site)
    (hpres : ∀ s, ((func s).2).no_login = s.no_login) :
    0 < ({ st with no_login := st.no_login + 1 } : BrowserSt).no_login ∧
    (no_need_login func st).1 = (func { st with no_login := st.no_login + 1 }).1 ∧
    ((no_need_login func st).2).no_login = st.no_login ∧
    ((do_login site st).2).no_login = st.no_login := by
  refine ⟨by simp, rfl, ?_, ?_⟩
  · show ((func { st with no_login := st.no_login + 1 }).2).no_login - 1 = st.no_login
    rw [hpres]
    show st.no_login + 1 - 1 = st.no_login
    omega
  · show ((do_login_body site { st with no_login := st.no_login + 1 }).2).no_login - 1
        = st.no_login
    rw [do_login_body_no_login]
    show st.no_login + 1 - 1 = st.no_login
    omega

/-- C9.  The replay consistency check: when the record class exposes a
`to_dict` conversion `f`, two records compare equal exactly when their
dicts are equal (`sent.to_dict() == new.to_dict()`); otherwise they compare
by direct equality (`sent == new`); and the replay loop accepts or rejects
the re-produced record at each position according to exactly this
comparison. -/
theorem c9_replay_comparison {α δ : Type} [DecidableEq α] [DecidableEq δ]
    (rt rt2 : RecordKind α δ) (f : α → δ) (sent new : α)
    (hf : rt.toDict = some f) (hn2 : rt2.toDict = none)
    (P : Nat → Attempt α) (ec : Exc → Bool) (inst pos : Nat) (rest : List α)
    (hp : pull P inst pos = Pull.item new) :
    recEqual rt sent new = decide (f sent = f new) ∧
    recEqual rt2 sent new = decide (sent = new) ∧
    replay P rt ec inst (sent :: rest) pos =
      (if recEqual rt sent new then replay P rt ec inst rest (pos + 1)
       else ReplayRes.inconsist pos) ∧
    replay P rt2 ec inst (sent :: rest) pos =
      (if recEqual rt2 sent new then replay P rt2 ec inst rest (pos + 1)
       else ReplayRes.inconsist pos) := by
  refine ⟨?_, ?_, ?_, ?_⟩
  · unfold recEqual
    rw [hf]
  · unfold recEqual
    rw [hn2]
  · rw [replay]
    simp only [hp]
  · rw [replay]
    simp only [hp]

/-- C10.  Factory-call failures and mid-iteration failures draw on one
shared budget: after `k` transient factory raises, a successful
iterator-returning call leaves the resumable budget at `tries - k`; over an
everywhere-faulty producer the subsequent iteration exhausts after exactly
`tries` factory calls in total (so only `tries - k - 1` further
mid-iteration transient failures were recovered from before the last one
exhausted the budget), while a schedule whose attempt `f < tries` is
fault-free is still fully recovered. -/
theorem c10_shared_budget {α β δ : Type} [DecidableEq α] [DecidableEq δ]
    (fac : Nat → FacOut α β) (k tries : Nat) (seq : List α)
    (cut1 cut2 : Nat → Option Nat) (rt : RecordKind α δ) (f : Nat)
    (hk : ∀ j, j < k → fac j = FacOut.raise Exc.loggedOut)
    (hgen : fac k = FacOut.gen) (hkt : k < tries)
    (hall : ∀ x, (cut1 x).isSome)
    (hf : cut2 f = none) (hkf : k ≤ f) (hft : f < tries) :
    retry fac isLoggedOut tries =
      Except.ok (RetryRet.iterator ⟨k + 1, some (k, 0), [], tries - k⟩) ∧
    (drain (detProducer seq cut1) rt isLoggedOut (seq.length + 1)
        ⟨k + 1, some (k, 0), [], tries - k⟩).1 <+: seq ∧
    (drain (detProducer seq cut1) rt isLoggedOut (seq.length + 1)
        ⟨k + 1, some (k, 0), [], tries - k⟩).2 =
      DrainEnd.failed NxErr.exhausted
        ⟨tries, none,
         (drain (detProducer seq cut1) rt isLoggedOut (seq.length + 1)
           ⟨k + 1, some (k, 0), [], tries - k⟩).1, 0⟩ ∧
    (drain (detProducer seq cut2) rt isLoggedOut (seq.length + 1)
        ⟨k + 1, some (k, 0), [], tries - k⟩).1 = seq ∧
    isEnded (drain (detProducer seq cut2) rt isLoggedOut (seq.length + 1)
        ⟨k + 1, some (k, 0), [], tries - k⟩).2 = true := by
  obtain ⟨t, ht⟩ : ∃ t, tries - k = t + 1 := ⟨tries - k - 1, by omega⟩
  have hfs : FailSt seq tries 0 ⟨k + 1, some (k, 0), [], tries - k⟩ :=
    ⟨k, tries - k, rfl, Nat.zero_le _, by omega, by omega⟩
  obtain ⟨nF, h1, h2, hdr2⟩ :=
    drain_allfail seq rt hall (seq.length + 1) 0 _ hfs (by omega)
  rw [List.drop_zero] at hdr2
  have hgs : GoodSt seq f 0 ⟨k + 1, some (k, 0), [], tries - k⟩ :=
    ⟨k, rfl, rfl, rfl, Nat.zero_le _, hkf, show f - k < tries - k by omega⟩
  obtain ⟨stF, hdr3⟩ := drain_good seq rt hf (seq.length + 1) 0 _ hgs (by omega)
  rw [List.drop_zero] at hdr3
  refine ⟨?_, ?_, ?_, ?_, ?_⟩
  · unfold retry
    rw [retryGo_skip fac k 0 tries (fun j hj => by rw [Nat.zero_add]; exact hk j hj)
      (by omega), Nat.zero_add, ht, retryGo_gen hgen t, ← ht]
  · rw [hdr2]
    exact List.take_prefix nF seq
  · rw [hdr2]
  · rw [hdr3]
  · rw [hdr3]
    rfl

/-! ## Witnesses -/

/-- Witness for C1: the spec's scenario — the first attempt yields two
records then fails transiently, the second attempt is fault-free — under
budget 4 delivers `[10, 20, 30, 40]` exactly once, in order. -/
theorem c1_witness :
    retry (fun _ => (FacOut.gen : FacOut Nat Nat)) isLoggedOut 4 =
      Except.ok (RetryRet.iterator ⟨1, some (0, 0), [], 4⟩) ∧
    (drain (detProducer [10, 20, 30, 40] (fun a => if a = 0 then some 2 else none))
        (⟨none⟩ : RecordKind Nat Nat) isLoggedOut ([10, 20, 30, 40].length + 1)
        ⟨1, some (0, 0), [], 4⟩).1 = [10, 20, 30, 40] ∧
    isEnded (drain (detProducer [10, 20, 30, 40] (fun a => if a = 0 then some 2 else none))
        (⟨none⟩ : RecordKind Nat Nat) isLoggedOut ([10, 20, 30, 40].length + 1)
        ⟨1, some (0, 0), [], 4⟩).2 = true :=
  c1_retry_no_duplication (fun _ => FacOut.gen) [10, 20, 30, 40]
    (fun a => if a = 0 then some 2 else none) ⟨none⟩ 1 4 rfl rfl
    (fun x hx => by
      have hx0 : x = 0 := by omega
      subst hx0
      rfl)
    (by omega)

/-- Witness for C2: records `[1, 2]` were emitted, the recreated instance
re-produces `1` then `99` — mismatch at position 1, inconsistency error,
no further records. -/
theorem c2_witness :
    iterNext (fun _ => (⟨[1, 99], AOut.stop⟩ : Attempt Nat))
        (⟨none⟩ : RecordKind Nat Nat) isLoggedOut ⟨0, none, [1, 2], 3⟩ =
      NxRes.fail NxErr.inconsistent ⟨1, some (0, 2), [1, 2], 3⟩ ∧
    drain (fun _ => (⟨[1, 99], AOut.stop⟩ : Attempt Nat)) (⟨none⟩ : RecordKind Nat Nat)
        isLoggedOut 3 ⟨0, none, [1, 2], 3⟩ =
      ([], DrainEnd.failed NxErr.inconsistent ⟨1, some (0, 2), [1, 2], 3⟩) :=
  c2_inconsistent_replay (fun _ => ⟨[1, 99], AOut.stop⟩) ⟨none⟩ isLoggedOut 0 1 2 2
    [1, 2] (by decide)
    (fun i hi => by
      have hi0 : i = 0 := by omega
      subst hi0
      exact ⟨1, rfl, rfl⟩)
    99 rfl rfl

/-- Witness for C3: records `[1, 2]` were emitted, the recreated instance
re-produces only `1` and then ends — short-replay error. -/
theorem c3_witness :
    iterNext (fun _ => (⟨[1], AOut.stop⟩ : Attempt Nat)) (⟨none⟩ : RecordKind Nat Nat)
        isLoggedOut ⟨0, none, [1, 2], 3⟩ =
      NxRes.fail NxErr.shortReplay ⟨1, some (0, 1), [1, 2], 3⟩ ∧
    drain (fun _ => (⟨[1], AOut.stop⟩ : Attempt Nat)) (⟨none⟩ : RecordKind Nat Nat)
        isLoggedOut 3 ⟨0, none, [1, 2], 3⟩ =
      ([], DrainEnd.failed NxErr.shortReplay ⟨1, some (0, 1), [1, 2], 3⟩) :=
  c3_short_replay (fun _ => ⟨[1], AOut.stop⟩) ⟨none⟩ isLoggedOut 0 1 2 2 [1, 2]
    (by decide)
    (fun i hi => by
      have hi0 : i = 0 := by omega
      subst hi0
      exact ⟨1, rfl, rfl⟩)
    rfl

/-- Witness for C4: every attempt of the producer fails transiently; with
budget 3 the iteration fails exhausted after exactly 3 factory calls,
having emitted a prefix of `[5, 6, 7]`. -/
theorem c4_witness :
    retry (fun _ => (FacOut.gen : FacOut Nat Nat)) isLoggedOut 3 =
      Except.ok (RetryRet.iterator ⟨1, some (0, 0), [], 3⟩) ∧
    (drain (detProducer [5, 6, 7] (fun a => some (a % 3))) (⟨none⟩ : RecordKind Nat Nat)
        isLoggedOut ([5, 6, 7].length + 1) ⟨1, some (0, 0), [], 3⟩).1 <+: [5, 6, 7] ∧
    (drain (detProducer [5, 6, 7] (fun a => some (a % 3))) (⟨none⟩ : RecordKind Nat Nat)
        isLoggedOut ([5, 6, 7].length + 1) ⟨1, some (0, 0), [], 3⟩).2 =
      DrainEnd.failed NxErr.exhausted
        ⟨3, none,
         (drain (detProducer [5, 6, 7] (fun a => some (a % 3)))
           (⟨none⟩ : RecordKind Nat Nat) isLoggedOut ([5, 6, 7].length + 1)
           ⟨1, some (0, 0), [], 3⟩).1, 0⟩ :=
  c4_budget_exhaustion (fun _ => FacOut.gen) [5, 6, 7] (fun a => some (a % 3)) ⟨none⟩ 3
    rfl (fun x => rfl) (by omega)

/-- Witness for C5: the factory raises `LoggedOut` on invocations 0, 1, 2
and returns 42 on invocation 3 — the wrapper returns 42; an all-raising
factory exhausts the 4 attempts. -/
theorem c5_witness :
    retry (fun k => if k < 3 then FacOut.raise Exc.loggedOut
      else (FacOut.value 42 : FacOut Nat Nat)) isLoggedOut 4 =
      Except.ok (RetryRet.value 42) ∧
    retry (fun _ => (FacOut.raise Exc.loggedOut : FacOut Nat Nat)) isLoggedOut 4 =
      Except.error RetryErr.unavailable :=
  c5_single_value_retry
    (fun k => if k < 3 then FacOut.raise Exc.loggedOut else FacOut.value 42)
    (fun _ => FacOut.raise Exc.loggedOut) 42
    (fun j hj => by simp only [if_pos hj]) rfl (fun j hj => rfl)

/-- Witness for C6: the factory raises `LoggedOut` once then the
non-transient `otherExc`, which propagates with budget left; a pull raising
`otherExc` propagates leaving budget 2 and call count 7 unchanged. -/
theorem c6_witness :
    retry (fun j => if j = 0 then FacOut.raise Exc.loggedOut
        else (FacOut.raise Exc.otherExc : FacOut Nat Nat)) isLoggedOut 3 =
      Except.error (RetryErr.exc Exc.otherExc) ∧
    iterNext (fun _ => (⟨[], AOut.raise Exc.otherExc⟩ : Attempt Nat))
        (⟨none⟩ : RecordKind Nat Nat) isLoggedOut ⟨7, some (0, 0), [], 2⟩ =
      NxRes.fail (NxErr.exc Exc.otherExc) ⟨7, some (0, 0), [], 2⟩ :=
  c6_nontransient_propagates
    (fun j => if j = 0 then FacOut.raise Exc.loggedOut else FacOut.raise Exc.otherExc)
    (fun _ => ⟨[], AOut.raise Exc.otherExc⟩) ⟨none⟩ Exc.otherExc rfl 1 3 (by omega)
    (fun j hj => by
      have hj0 : j = 0 := by omega
      subst hj0
      rfl)
    rfl 7 0 0 1 [] rfl

/-- Witness for C7: a site whose login submission lands back on the login
page makes `do_login` raise `BrowserIncorrectPassword`, and the retry
wrapper propagates that exception unretried under budget 4. -/
theorem c7_witness :
    (do_login ⟨PageKind.otherPage, fun _ => PageKind.loginPage⟩
        ⟨PageKind.otherPage, 0⟩).1 = Except.error Exc.incorrectPassword ∧
    retry (fun _ => (FacOut.raise Exc.incorrectPassword : FacOut Nat Nat)) isLoggedOut
        4 = Except.error (RetryErr.exc Exc.incorrectPassword) :=
  c7_invalid_credentials ⟨PageKind.otherPage, fun _ => PageKind.loginPage⟩
    ⟨PageKind.otherPage, 0⟩ 3 rfl

/-- Witness for C8: a counter-preserving routine run under the guard from
counter 5 executes at counter 6 and the counter is 5 again afterwards;
likewise for `do_login`. -/
theorem c8_witness :
    0 < ({ page := PageKind.otherPage, no_login := 6 } : BrowserSt).no_login ∧
    (no_need_login (fun s => (Except.ok (0 : Nat), s))
        ⟨PageKind.otherPage, 5⟩).1 = Except.ok 0 ∧
    ((no_need_login (fun s => (Except.ok (0 : Nat), s))
        ⟨PageKind.otherPage, 5⟩).2).no_login = 5 ∧
    ((do_login ⟨PageKind.otherPage, fun _ => PageKind.loginPage⟩
        ⟨PageKind.otherPage, 5⟩).2).no_login = 5 :=
  c8_login_depth_guard (fun s => (Except.ok 0, s)) ⟨PageKind.otherPage, 5⟩
    ⟨PageKind.otherPage, fun _ => PageKind.loginPage⟩ (fun _ => rfl)

/-- Witness for C9: records 12 and 22 compare equal under the
`to_dict`-style comparison `x % 10` but unequal under direct equality, and
the replay loop branches on exactly these comparisons. -/
theorem c9_witness :
    recEqual (⟨some (fun x => x % 10)⟩ : RecordKind Nat Nat) 12 22 =
      decide ((fun x : Nat => x % 10) 12 = (fun x : Nat => x % 10) 22) ∧
    recEqual (⟨none⟩ : RecordKind Nat Nat) 12 22 = decide (12 = 22) ∧
    replay (fun _ => (⟨[22], AOut.stop⟩ : Attempt Nat))
        (⟨some (fun x => x % 10)⟩ : RecordKind Nat Nat) isLoggedOut 0 [12] 0 =
      (if recEqual (⟨some (fun x => x % 10)⟩ : RecordKind Nat Nat) 12 22 then
        replay (fun _ => (⟨[22], AOut.stop⟩ : Attempt Nat))
          (⟨some (fun x => x % 10)⟩ : RecordKind Nat Nat) isLoggedOut 0 [] 1
       else ReplayRes.inconsist 0) ∧
    replay (fun _ => (⟨[22], AOut.stop⟩ : Attempt Nat))
        (⟨none⟩ : RecordKind Nat Nat) isLoggedOut 0 [12] 0 =
      (if recEqual (⟨none⟩ : RecordKind Nat Nat) 12 22 then
        replay (fun _ => (⟨[22], AOut.stop⟩ : Attempt Nat))
          (⟨none⟩ : RecordKind Nat Nat) isLoggedOut 0 [] 1
       else ReplayRes.inconsist 0) :=
  c9_replay_comparison ⟨some (fun x => x % 10)⟩ ⟨none⟩ (fun x => x % 10) 12 22 rfl rfl
    (fun _ => ⟨[22], AOut.stop⟩) isLoggedOut 0 0 [] rfl

/-- Witness for C10: one transient factory raise then a successful
iterator-returning call under budget 4 leaves the resumable budget at 3;
over an all-faulty producer the iteration exhausts with 4 factory calls in
total; with attempt 2 fault-free it delivers `[8, 9]` completely. -/
theorem c10_witness :
    retry (fun j => if j = 0 then FacOut.raise Exc.loggedOut
        else (FacOut.gen : FacOut Nat Nat)) isLoggedOut 4 =
      Except.ok (RetryRet.iterator ⟨2, some (1, 0), [], 3⟩) ∧
    (drain (detProducer [8, 9] (fun _ => some 1)) (⟨none⟩ : RecordKind Nat Nat)
        isLoggedOut ([8, 9].length + 1) ⟨2, some (1, 0), [], 3⟩).1 <+: [8, 9] ∧
    (drain (detProducer [8, 9] (fun _ => some 1)) (⟨none⟩ : RecordKind Nat Nat)
        isLoggedOut ([8, 9].length + 1) ⟨2, some (1, 0), [], 3⟩).2 =
      DrainEnd.failed NxErr.exhausted
        ⟨4, none,
         (drain (detProducer [8, 9] (fun _ => some 1)) (⟨none⟩ : RecordKind Nat Nat)
           isLoggedOut ([8, 9].length + 1) ⟨2, some (1, 0), [], 3⟩).1, 0⟩ ∧
    (drain (detProducer [8, 9] (fun a => if a = 2 then none else some 1))
        (⟨none⟩ : RecordKind Nat Nat) isLoggedOut ([8, 9].length + 1)
        ⟨2, some (1, 0), [], 3⟩).1 = [8, 9] ∧
    isEnded (drain (detProducer [8, 9] (fun a => if a = 2 then none else some 1))
        (⟨none⟩ : RecordKind Nat Nat) isLoggedOut ([8, 9].length + 1)
        ⟨2, some (1, 0), [], 3⟩).2 = true :=
  c10_shared_budget
    (fun j => if j = 0 then FacOut.raise Exc.loggedOut else FacOut.gen) 1 4 [8, 9]
    (fun _ => some 1) (fun a => if a = 2 then none else some 1) ⟨none⟩ 2
    (fun j hj => by
      have hj0 : j = 0 := by omega
      subst hj0
      rfl)
    rfl (by omega) (fun x => rfl) rfl (by omega) (by omega)

end BP
